import Mathlib

/-!
Shallow embedding of `cmd/doc-server/main.go` from the swagger-hub
repository, together with theorems settling the specification claims
about option validation, landing-page generation, template substitution,
the watcher callback, and the startup exit codes.

The Go program is a single file.  Pure string manipulation
(`strings.Replace`, `fmt.Sprintf`, the `bytes.Buffer` loop of
`genSelectHTML`) is embedded as Lean functions on `String` / `List Char`.
File-system state (`ioutil.ReadFile` / `ioutil.WriteFile`) is embedded as
an explicit association list from paths to contents.  The helper packages
`github.com/voidint/swagger-hub/{os,filepath}` are not part of the source
tree under verification; `DirExisted` is modelled from the spec and the
scanner `ScanSwaggerDocs` is passed as an explicit parameter, since every
claim fixes the scan result rather than the scanner's internals.
-/

namespace DocServer

/-- Errors of the Go program. `errPort`/`errDir` embed the package-level
`ErrPort`/`ErrDir` values; `ioErr` stands for an operating-system error
carrying the offending path (file read, log open, scan failure). -/
inductive GoErr where
  | errPort
  | errDir
  | ioErr (path : String)
deriving DecidableEq, Repr

/-- One line sent to the `log.Logger`.  `logErr e` embeds
`logger.Println(err)`; `findDocs paths` embeds
`logger.Printf("Find docs: %v\n", paths)`. -/
inductive LogEntry where
  | logErr (e : GoErr)
  | findDocs (paths : List String)
deriving DecidableEq, Repr

/-- The command-line options struct of the program.  Go's `uint` port is
embedded as `Nat` (the flag parser rejects negative values). -/
structure Options where
  Port : Nat
  Domain : String
  Dir : String
  LogFile : String
deriving DecidableEq, Repr

/-- `maxPort = 65535`, as in the source. -/
def maxPort : Nat := 65535

/-- File-system state: files as an association list from path to content
(later bindings shadow earlier ones, so a write is a prepend), plus the
set of existing directories. -/
structure FS where
  files : List (String × String)
  dirs : List String
deriving DecidableEq, Repr

/-- Embeds `ioutil.ReadFile`: the content of the file at `p`, or an
operating-system error when no such file exists. -/
def FS.readFile (fs : FS) (p : String) : Except GoErr String :=
  match fs.files.lookup p with
  | some c => Except.ok c
  | none => Except.error (GoErr.ioErr p)

/-- Embeds `ioutil.WriteFile`: fully replaces any prior content at `p`. -/
def FS.writeFile (fs : FS) (p c : String) : FS :=
  { fs with files := (p, c) :: fs.files }

/-- Modelled from the spec: `shos.DirExisted` (package
`swagger-hub/os`, not in the source tree) — true iff the path exists and
is a directory. -/
def DirExisted (fs : FS) (p : String) : Bool :=
  fs.dirs.contains p

/-- Embeds `Options.Validate`: reject a port above `maxPort`, then reject
a non-existing document directory. -/
def Options.Validate (opts : Options) (fs : FS) : Option GoErr :=
  if opts.Port > maxPort then some GoErr.errPort
  else if DirExisted fs opts.Dir then none
  else some GoErr.errDir

/-- Models Go's `filepath.Join` on the already-clean arguments this
program uses (a directory without trailing slash joined with a plain
file or directory name). -/
def filepathJoin (a b : String) : String :=
  if a = "" then b else a ++ "/" ++ b

/-- The output path `filepath.Join(opts.Dir, "index.html")`. -/
def indexHTMLPath (opts : Options) : String :=
  filepathJoin opts.Dir "index.html"

/-- The template path `filepath.Join(opts.Dir, "index.tpl")`. -/
def indexTPLPath (opts : Options) : String :=
  filepathJoin opts.Dir "index.tpl"

/-- The scanned directory `filepath.Join(opts.Dir, "api")`. -/
def apiBasePath (opts : Options) : String :=
  filepathJoin opts.Dir "api"

/-- `fmt.Sprintf("http://%s:%d/api", opts.Domain, opts.Port)`. -/
def baseURI (opts : Options) : String :=
  "http://" ++ opts.Domain ++ ":" ++ toString opts.Port ++ "/api"

/-- Fuelled kernel of Go's `strings.Replace(s, pat, rep, -1)` for a
non-empty pattern: scan left to right, replace each non-overlapping
occurrence of `pat` by `rep`.  The fuel only drives structural
recursion; with `fuel ≥ s.length` (every use below) it never runs out,
since each step consumes at least one character of `s`. -/
def replaceAllFuel (pat rep : List Char) : Nat → List Char → List Char
  | _, [] => []
  | 0, s => s
  | fuel + 1, c :: rest =>
    if List.take pat.length (c :: rest) = pat then
      rep ++ replaceAllFuel pat rep fuel (List.drop pat.length (c :: rest))
    else
      c :: replaceAllFuel pat rep fuel rest

/-- `strings.Replace(s, pat, rep, -1)` on character lists (non-empty
`pat`). -/
def replaceAll (pat rep s : List Char) : List Char :=
  replaceAllFuel pat rep s.length s

/-- `strings.Replace(s, pat, rep, -1)` on strings. -/
def strReplaceAll (s pat rep : String) : String :=
  String.mk (replaceAll pat.data rep.data s.data)

/-- `true` iff `pat` occurs as a contiguous sublist of `s` (an empty
`pat` occurs everywhere). -/
def containsSub (pat : List Char) : List Char → Bool
  | [] => pat.isEmpty
  | c :: rest => decide (List.take pat.length (c :: rest) = pat) || containsSub pat rest

/-- The number of positions of `s` at which `pat` matches (occurrences
may overlap; an empty `pat` also matches at the end). -/
def countOcc (pat : List Char) : List Char → Nat
  | [] => if pat.isEmpty then 1 else 0
  | c :: rest =>
    (if List.take pat.length (c :: rest) = pat then 1 else 0) + countOcc pat rest

/-- Fuelled greedy splitting of `s` at the non-overlapping occurrences of
`pat`, following exactly the scan of `replaceAllFuel`: joining the
pieces back with `pat` restores `s`, and joining them with `rep` gives
the replacement output. -/
def splitOnSubFuel (pat : List Char) : Nat → List Char → List (List Char)
  | _, [] => [[]]
  | 0, s => [s]
  | fuel + 1, c :: rest =>
    if List.take pat.length (c :: rest) = pat then
      [] :: splitOnSubFuel pat fuel (List.drop pat.length (c :: rest))
    else
      match splitOnSubFuel pat fuel rest with
      | [] => [[c]]
      | p :: ps => (c :: p) :: ps

/-- Greedy split of `s` at the non-overlapping occurrences of `pat`. -/
def splitOnSub (pat s : List Char) : List (List Char) :=
  splitOnSubFuel pat s.length s

/-- Interleaves a separator between the pieces of a list (the inverse of
`splitOnSub`). -/
def joinSep (sep : List Char) : List (List Char) → List Char
  | [] => []
  | [p] => p
  | p :: ps => p ++ sep ++ joinSep sep ps

/-- The per-path URL of `genSelectHTML`:
`strings.Replace(path, apiBasePath, baseURI, -1)`. -/
def genSelectVal (opts : Options) (path : String) : String :=
  strReplaceAll path (apiBasePath opts) (baseURI opts)

/-- One loop iteration of `genSelectHTML`:
`fmt.Sprintf("<option value=\"%s\">%s</option>", val, val)`. -/
def optionEntry (opts : Options) (path : String) : String :=
  "<option value=\"" ++ genSelectVal opts path ++ "\">" ++ genSelectVal opts path ++ "</option>"

/-- The buffer accumulated by the `for` loop of `genSelectHTML`. -/
def optionsHTML (opts : Options) : List String → String
  | [] => ""
  | p :: ps => optionEntry opts p ++ optionsHTML opts ps

/-- Embeds `genSelectHTML`: the fixed `<select>` opening, one option per
scanned path in order, then the closing tag. -/
def genSelectHTML (opts : Options) (paths : List String) : String :=
  "<select id=\"input_baseUrl\" name=\"baseUrl\">" ++ optionsHTML opts paths ++ "</select>"

/-- The substitution marker of the template. -/
def marker : String := "${baseURLs}"

/-- The pure rendering step of `genIndexHTML`:
`strings.Replace(html, "${baseURLs}", genSelectHTML(...), -1)`. -/
def renderIndexHTML (opts : Options) (tplData : String) (paths : List String) : String :=
  strReplaceAll tplData marker (genSelectHTML opts paths)

/-- Embeds `genIndexHTML`: read the template, scan the document
directory (the scanner is the not-in-tree `shfilepath.ScanSwaggerDocs`,
passed as the parameter `scan`), render, and write `index.html`.  The
first component collects the logger lines; the second is the function's
error result, carrying the written file system on success.  An error
return happens strictly before the write, so no `FS` accompanies it. -/
def genIndexHTML (scan : String → Except GoErr (List String)) (opts : Options)
    (fs : FS) : List LogEntry × Except GoErr FS :=
  match fs.readFile (indexTPLPath opts) with
  | Except.error e => ([LogEntry.logErr e], Except.error e)
  | Except.ok tplData =>
    match scan (apiBasePath opts) with
    | Except.error e => ([LogEntry.logErr e], Except.error e)
    | Except.ok paths =>
      ([LogEntry.findDocs paths],
        Except.ok (fs.writeFile (indexHTMLPath opts) (renderIndexHTML opts tplData paths)))

/-- The effect on the file system of one `genIndexHTML` call whose error
result is discarded, as in the watcher callback of `Run`: on failure the
previous state (and hence the previously generated landing page) is kept. -/
def applyGen (scan : String → Except GoErr (List String)) (opts : Options) (fs : FS) : FS :=
  match (genIndexHTML scan opts fs).2 with
  | Except.ok fs2 => fs2
  | Except.error _ => fs

/-- One `fsnotify.FileEvent`, embedded as its classification flags
(`IsCreate`, `IsDelete`, `IsModify`, `IsRename`, `IsAttrib`). -/
structure FileEvent where
  isCreate : Bool
  isDelete : Bool
  isModify : Bool
  isRename : Bool
  isAttrib : Bool
deriving DecidableEq, Repr

/-- Embeds the watcher callback of `Run`: regenerate on create, delete
or rename events, dropping any error; ignore every other event. -/
def watchCallback (scan : String → Except GoErr (List String)) (opts : Options)
    (ev : FileEvent) (fs : FS) : FS :=
  if ev.isCreate || ev.isDelete || ev.isRename then applyGen scan opts fs else fs

/-- A startup outcome of `main`: either `os.Exit code` before the HTTP
server starts, or reaching `http.ListenAndServe`. -/
inductive Outcome where
  | exited (code : Nat)
  | serving
deriving DecidableEq, Repr

/-- The observable result of `main`'s startup: the outcome, the errors
printed to `os.Stderr`, and the resulting file system. -/
structure MainResult where
  outcome : Outcome
  stderr : List GoErr
  fs : FS
deriving DecidableEq, Repr

/-- Embeds `main` up to the point the HTTP server starts: validate the
options (failure prints the error and exits 1), initialise the log file
(`logRes` stands for the result of `initLog`, an operating-system
action; failure exits 2), then `Run` performs the initial `genIndexHTML`
(failure exits 3, before `http.ListenAndServe` is ever reached). -/
def mainOutcome (scan : String → Except GoErr (List String)) (opts : Options)
    (fs : FS) (logRes : Except GoErr Unit) : MainResult :=
  match opts.Validate fs with
  | some e => ⟨Outcome.exited 1, [e], fs⟩
  | none =>
    match logRes with
    | Except.error e => ⟨Outcome.exited 2, [e], fs⟩
    | Except.ok _ =>
      match (genIndexHTML scan opts fs).2 with
      | Except.error e => ⟨Outcome.exited 3, [e], fs⟩
      | Except.ok fs2 => ⟨Outcome.serving, [], fs2⟩

/-- The concrete options of the end-to-end scenario: port 8080, domain
`example.com`, document root `/docs`. -/
def optsEx : Options :=
  ⟨8080, "example.com", "/docs", "doc-server.log"⟩

/-- The concrete document root of the end-to-end scenario: it contains
only the template `index.tpl`. -/
def fsEx : FS :=
  ⟨[("/docs/index.tpl", "<select id=\"x\">${baseURLs}</select>")], ["/docs", "/docs/api"]⟩

/-- A scanner whose result set is exactly the single document
`foo.json` directly under the scanned base directory. -/
def scanEx : String → Except GoErr (List String) :=
  fun p => Except.ok [filepathJoin p "foo.json"]

/-- The template of the end-to-end scenario. -/
def tplEx : String := "<select id=\"x\">${baseURLs}</select>"

/-- The file system after the first generation cycle of the end-to-end
scenario: the rendered landing page has been written next to the
template. -/
def fsEx2 : FS :=
  fsEx.writeFile (indexHTMLPath optsEx) (renderIndexHTML optsEx tplEx ["/docs/api/foo.json"])

/-- A configuration with port 0: not a positive port number, yet
accepted by `Options.Validate`. -/
def optsPort0 : Options :=
  ⟨0, "example.com", "/docs", "doc-server.log"⟩

/-- A configuration with a port beyond the valid range. -/
def optsBadPort : Options :=
  ⟨70000, "example.com", "/docs", "doc-server.log"⟩

/-- A document root without a template file, so every generation cycle
fails at the template-read step. -/
def fsNoTpl : FS :=
  ⟨[], ["/docs", "/docs/api"]⟩

/-- A modification-in-place file-system event (only `IsModify` set). -/
def evModify : FileEvent :=
  ⟨false, false, true, false, false⟩

theorem strData_append (a b : String) : (a ++ b).data = a.data ++ b.data := by
  cases a
  cases b
  rfl

theorem strExt (a b : String) (h : a.data = b.data) : a = b := by
  cases a with
  | mk da =>
    cases b with
    | mk db =>
      cases h
      rfl

theorem countOcc_eq_zero_iff (pat s : List Char) :
    countOcc pat s = 0 ↔ containsSub pat s = false := by
  induction s with
  | nil =>
    cases h : pat.isEmpty <;> simp [countOcc, containsSub, h]
  | cons c rest ih =>
    by_cases htake : List.take pat.length (c :: rest) = pat <;>
      simp [countOcc, containsSub, htake, ih]

theorem replaceAllFuel_eq_self (pat rep : List Char) :
    ∀ (fuel : Nat) (s : List Char), s.length ≤ fuel → containsSub pat s = false →
      replaceAllFuel pat rep fuel s = s := by
  intro fuel
  induction fuel with
  | zero =>
    intro s hs _
    have hnil : s = [] := List.length_eq_zero.mp (Nat.le_zero.mp hs)
    subst hnil
    rfl
  | succ f ih =>
    intro s hs hc
    cases s with
    | nil => rfl
    | cons c rest =>
      have h1 : ¬ (List.take pat.length (c :: rest) = pat) ∧ containsSub pat rest = false := by
        simpa [containsSub] using hc
      have hrest : rest.length ≤ f := by
        simpa using Nat.le_of_succ_le_succ hs
      simp [replaceAllFuel, h1.1, ih rest hrest h1.2]

theorem replaceAllFuel_append (pat rep post : List Char) (hpat : pat ≠ []) :
    ∀ (fuel : Nat), (pat ++ post).length ≤ fuel → containsSub pat post = false →
      replaceAllFuel pat rep fuel (pat ++ post) = rep ++ post := by
  intro fuel hlen hc
  cases pat with
  | nil => exact absurd rfl hpat
  | cons c pat2 =>
    cases fuel with
    | zero =>
      exfalso
      simp [List.length_append] at hlen
    | succ f =>
      have htake : List.take (c :: pat2).length ((c :: pat2) ++ post) = c :: pat2 :=
        List.take_left (c :: pat2) post
      have hdrop : List.drop (c :: pat2).length ((c :: pat2) ++ post) = post :=
        List.drop_left (c :: pat2) post
      have hpost : post.length ≤ f := by
        simp [List.length_append] at hlen
        omega
      simp only [List.cons_append] at htake hdrop
      simp [replaceAllFuel, htake, hdrop,
        replaceAllFuel_eq_self (c :: pat2) rep f post hpost hc]

theorem countOcc_cons (pat : List Char) (c : Char) (rest : List Char) :
    countOcc pat (c :: rest) =
      (if List.take pat.length (c :: rest) = pat then 1 else 0) + countOcc pat rest := rfl

theorem replaceAllFuel_succ_cons (pat rep : List Char) (fuel : Nat) (c : Char)
    (rest : List Char) :
    replaceAllFuel pat rep (fuel + 1) (c :: rest) =
      if List.take pat.length (c :: rest) = pat then
        rep ++ replaceAllFuel pat rep fuel (List.drop pat.length (c :: rest))
      else c :: replaceAllFuel pat rep fuel rest := rfl

theorem containsSub_cons (pat : List Char) (c : Char) (rest : List Char) :
    containsSub pat (c :: rest) =
      (decide (List.take pat.length (c :: rest) = pat) || containsSub pat rest) := rfl

theorem countOcc_zero_of_append (pat : List Char) :
    ∀ (x y : List Char), countOcc pat (x ++ y) = 0 → countOcc pat y = 0 := by
  intro x
  induction x with
  | nil => intro y h; simpa using h
  | cons c x2 ih =>
    intro y h
    rw [List.cons_append, countOcc_cons] at h
    exact ih y (by omega)

theorem one_le_countOcc (pat : List Char) (hpat : pat ≠ []) :
    ∀ (x y : List Char), 1 ≤ countOcc pat (x ++ (pat ++ y)) := by
  intro x
  induction x with
  | nil =>
    intro y
    rw [List.nil_append]
    cases pat with
    | nil => exact absurd rfl hpat
    | cons c pat2 =>
      have htake : List.take (c :: pat2).length ((c :: pat2) ++ y) = c :: pat2 :=
        List.take_left (c :: pat2) y
      rw [List.cons_append] at htake
      rw [List.cons_append, countOcc_cons, if_pos htake]
      omega
  | cons c x2 ih =>
    intro y
    rw [List.cons_append, countOcc_cons]
    have := ih y
    omega

theorem replaceAllFuel_single (pat rep : List Char) (hpat : pat ≠ []) :
    ∀ (pre post : List Char) (fuel : Nat), (pre ++ (pat ++ post)).length ≤ fuel →
      countOcc pat (pre ++ (pat ++ post)) = 1 →
      replaceAllFuel pat rep fuel (pre ++ (pat ++ post)) = pre ++ (rep ++ post) := by
  intro pre
  induction pre with
  | nil =>
    intro post fuel hlen hone
    rw [List.nil_append] at hlen hone ⊢
    cases pat with
    | nil => exact absurd rfl hpat
    | cons c pat2 =>
      have htake : List.take (c :: pat2).length ((c :: pat2) ++ post) = c :: pat2 :=
        List.take_left (c :: pat2) post
      rw [List.cons_append] at htake
      have h0 : countOcc (c :: pat2) (pat2 ++ post) = 0 := by
        rw [List.cons_append, countOcc_cons, if_pos htake] at hone
        omega
      have hc : containsSub (c :: pat2) post = false :=
        (countOcc_eq_zero_iff _ _).mp (countOcc_zero_of_append _ pat2 post h0)
      exact replaceAllFuel_append (c :: pat2) rep post hpat fuel hlen hc
  | cons c pre2 ih =>
    intro post fuel hlen hone
    rw [List.cons_append] at hlen hone ⊢
    cases fuel with
    | zero => simp at hlen
    | succ f =>
      have htake : ¬ (List.take pat.length (c :: (pre2 ++ (pat ++ post))) = pat) := by
        intro h
        have hge : 1 ≤ countOcc pat (pre2 ++ (pat ++ post)) :=
          one_le_countOcc pat hpat pre2 post
        rw [countOcc_cons, if_pos h] at hone
        omega
      have hone2 : countOcc pat (pre2 ++ (pat ++ post)) = 1 := by
        rw [countOcc_cons, if_neg htake] at hone
        omega
      have hlen2 : (pre2 ++ (pat ++ post)).length ≤ f := by
        rw [List.length_cons] at hlen
        omega
      rw [replaceAllFuel_succ_cons, if_neg htake, ih post f hlen2 hone2, List.cons_append]

theorem splitOnSubFuel_succ_cons (pat : List Char) (fuel : Nat) (c : Char)
    (rest : List Char) :
    splitOnSubFuel pat (fuel + 1) (c :: rest) =
      if List.take pat.length (c :: rest) = pat then
        [] :: splitOnSubFuel pat fuel (List.drop pat.length (c :: rest))
      else
        match splitOnSubFuel pat fuel rest with
        | [] => [[c]]
        | p :: ps => (c :: p) :: ps := rfl

theorem splitOnSubFuel_ne_nil (pat : List Char) :
    ∀ (fuel : Nat) (s : List Char), splitOnSubFuel pat fuel s ≠ [] := by
  intro fuel
  induction fuel with
  | zero => intro s; cases s <;> simp [splitOnSubFuel]
  | succ f ih =>
    intro s
    cases s with
    | nil => simp [splitOnSubFuel]
    | cons c rest =>
      rw [splitOnSubFuel_succ_cons]
      by_cases h : List.take pat.length (c :: rest) = pat
      · simp [h]
      · rw [if_neg h]
        cases hsp : splitOnSubFuel pat f rest <;> simp

theorem joinSep_splitOnSubFuel (pat : List Char) :
    ∀ (fuel : Nat) (s : List Char), joinSep pat (splitOnSubFuel pat fuel s) = s := by
  intro fuel
  induction fuel with
  | zero => intro s; cases s <;> rfl
  | succ f ih =>
    intro s
    cases s with
    | nil => rfl
    | cons c rest =>
      rw [splitOnSubFuel_succ_cons]
      by_cases h : List.take pat.length (c :: rest) = pat
      · rw [if_pos h]
        cases hsp : splitOnSubFuel pat f (List.drop pat.length (c :: rest)) with
        | nil => exact absurd hsp (splitOnSubFuel_ne_nil pat f _)
        | cons p ps =>
          have hres : joinSep pat (p :: ps) = List.drop pat.length (c :: rest) := by
            rw [← hsp]
            exact ih _
          show [] ++ pat ++ joinSep pat (p :: ps) = c :: rest
          rw [hres, List.nil_append]
          conv_rhs => rw [← List.take_append_drop pat.length (c :: rest)]
          rw [h]
      · rw [if_neg h]
        cases hsp : splitOnSubFuel pat f rest with
        | nil => exact absurd hsp (splitOnSubFuel_ne_nil pat f rest)
        | cons p ps =>
          have hres : joinSep pat (p :: ps) = rest := by
            rw [← hsp]
            exact ih rest
          cases ps with
          | nil =>
            show c :: p = c :: rest
            show c :: p = c :: rest
            have hp : p = rest := hres
            rw [hp]
          | cons q qs =>
            show (c :: p) ++ pat ++ joinSep pat (q :: qs) = c :: rest
            have hres2 : p ++ pat ++ joinSep pat (q :: qs) = rest := hres
            rw [← hres2]
            simp only [List.cons_append]

theorem replaceAllFuel_eq_joinSep (pat rep : List Char) :
    ∀ (fuel : Nat) (s : List Char),
      replaceAllFuel pat rep fuel s = joinSep rep (splitOnSubFuel pat fuel s) := by
  intro fuel
  induction fuel with
  | zero => intro s; cases s <;> rfl
  | succ f ih =>
    intro s
    cases s with
    | nil => rfl
    | cons c rest =>
      rw [replaceAllFuel_succ_cons, splitOnSubFuel_succ_cons]
      by_cases h : List.take pat.length (c :: rest) = pat
      · rw [if_pos h, if_pos h]
        cases hsp : splitOnSubFuel pat f (List.drop pat.length (c :: rest)) with
        | nil => exact absurd hsp (splitOnSubFuel_ne_nil pat f _)
        | cons p ps =>
          show rep ++ replaceAllFuel pat rep f _ = [] ++ rep ++ joinSep rep (p :: ps)
          rw [ih, hsp, List.nil_append]
      · rw [if_neg h, if_neg h]
        cases hsp : splitOnSubFuel pat f rest with
        | nil => exact absurd hsp (splitOnSubFuel_ne_nil pat f rest)
        | cons p ps =>
          rw [ih rest, hsp]
          cases ps with
          | nil => rfl
          | cons q qs =>
            show c :: joinSep rep (p :: q :: qs) = (c :: p) ++ rep ++ joinSep rep (q :: qs)
            show c :: (p ++ rep ++ joinSep rep (q :: qs)) = (c :: p) ++ rep ++ joinSep rep (q :: qs)
            simp only [List.cons_append]

theorem splitOnSubFuel_head (pat : List Char) :
    ∀ (fuel : Nat) (s p : List Char) (ps : List (List Char)),
      splitOnSubFuel pat fuel s = p :: ps → ∃ t, p ++ t = s := by
  intro fuel
  induction fuel with
  | zero =>
    intro s p ps h
    cases s with
    | nil =>
      injection h with h1 h2
      exact ⟨[], by rw [← h1]; rfl⟩
    | cons c rest =>
      injection h with h1 h2
      exact ⟨[], by rw [← h1]; simp⟩
  | succ f ih =>
    intro s p ps h
    cases s with
    | nil =>
      injection h with h1 h2
      exact ⟨[], by rw [← h1]; rfl⟩
    | cons c rest =>
      rw [splitOnSubFuel_succ_cons] at h
      by_cases hc : List.take pat.length (c :: rest) = pat
      · rw [if_pos hc] at h
        injection h with h1 h2
        exact ⟨c :: rest, by rw [← h1]; rfl⟩
      · rw [if_neg hc] at h
        cases hsp : splitOnSubFuel pat f rest with
        | nil => exact absurd hsp (splitOnSubFuel_ne_nil pat f rest)
        | cons q qs =>
          rw [hsp] at h
          injection h with h1 h2
          obtain ⟨t, ht⟩ := ih rest q qs hsp
          exact ⟨t, by rw [← h1, List.cons_append, ht]⟩

theorem containsSub_nil_of_ne (pat : List Char) (hpat : pat ≠ []) :
    containsSub pat [] = false := by
  cases pat with
  | nil => exact absurd rfl hpat
  | cons c pat2 => rfl

theorem splitOnSubFuel_pieces (pat : List Char) (hpat : pat ≠ []) :
    ∀ (fuel : Nat) (s : List Char), s.length ≤ fuel →
      ∀ q ∈ splitOnSubFuel pat fuel s, containsSub pat q = false := by
  intro fuel
  induction fuel with
  | zero =>
    intro s hs q hq
    have hnil : s = [] := List.length_eq_zero.mp (Nat.le_zero.mp hs)
    subst hnil
    simp [splitOnSubFuel] at hq
    subst hq
    exact containsSub_nil_of_ne pat hpat
  | succ f ih =>
    intro s hs q hq
    cases s with
    | nil =>
      simp [splitOnSubFuel] at hq
      subst hq
      exact containsSub_nil_of_ne pat hpat
    | cons c rest =>
      rw [splitOnSubFuel_succ_cons] at hq
      by_cases hc : List.take pat.length (c :: rest) = pat
      · rw [if_pos hc] at hq
        rcases List.mem_cons.mp hq with h1 | h2
        · subst h1
          exact containsSub_nil_of_ne pat hpat
        · have hlen : (List.drop pat.length (c :: rest)).length ≤ f := by
            rw [List.length_drop, List.length_cons]
            have hplen : 1 ≤ pat.length := by
              cases pat with
              | nil => exact absurd rfl hpat
              | cons d pat2 => simp
            rw [List.length_cons] at hs
            omega
          exact ih _ hlen q h2
      · rw [if_neg hc] at hq
        have hrest : rest.length ≤ f := by
          rw [List.length_cons] at hs
          omega
        cases hsp : splitOnSubFuel pat f rest with
        | nil => exact absurd hsp (splitOnSubFuel_ne_nil pat f rest)
        | cons p ps =>
          rw [hsp] at hq
          rcases List.mem_cons.mp hq with h1 | h2
          · subst h1
            rw [containsSub_cons]
            have hpfree : containsSub pat p = false :=
              ih rest hrest p (by rw [hsp]; exact List.mem_cons_self p ps)
            have htake2 : ¬ (List.take pat.length (c :: p) = pat) := by
              intro hTake
              obtain ⟨t, ht⟩ := splitOnSubFuel_head pat f rest p ps hsp
              apply hc
              cases pat with
              | nil => exact absurd rfl hpat
              | cons d pat2 =>
                rw [List.length_cons, List.take_succ_cons] at hTake
                injection hTake with hcd hTake2
                have hle : pat2.length ≤ p.length := by
                  have hlt := congrArg List.length hTake2
                  rw [List.length_take] at hlt
                  omega
                rw [List.length_cons, List.take_succ_cons, ← ht,
                  List.take_append_of_le_length hle, hTake2, hcd]
            simp [htake2, hpfree]
          · exact ih rest hrest q (by rw [hsp]; exact List.mem_cons_of_mem p h2)

theorem strJoin_cons (s : String) (l : List String) :
    String.join (s :: l) = s ++ String.join l := by
  have key : ∀ (l : List String) (a : String),
      List.foldl (fun r x => r ++ x) a l = a ++ List.foldl (fun r x => r ++ x) "" l := by
    intro l
    induction l with
    | nil => intro a; simp
    | cons x xs ih =>
      intro a
      simp only [List.foldl_cons]
      rw [ih (a ++ x), ih ("" ++ x)]
      simp [String.append_assoc]
  simp only [String.join, List.foldl_cons]
  rw [key l ("" ++ s)]
  simp

theorem optionsHTML_eq_join (opts : Options) :
    ∀ paths : List String, optionsHTML opts paths = String.join (paths.map (optionEntry opts)) := by
  intro paths
  induction paths with
  | nil => rfl
  | cons p ps ih =>
    rw [List.map_cons, strJoin_cons, ← ih]
    rfl

theorem apiBasePath_data_ne_nil (opts : Options) : (apiBasePath opts).data ≠ [] := by
  unfold apiBasePath filepathJoin
  by_cases h : opts.Dir = ""
  · rw [if_pos h]
    decide
  · rw [if_neg h]
    intro hbad
    rw [strData_append, List.append_eq_nil] at hbad
    exact absurd hbad.2 (by decide)

theorem indexPaths_ne (opts : Options) : indexTPLPath opts ≠ indexHTMLPath opts := by
  unfold indexHTMLPath indexTPLPath filepathJoin
  by_cases h : opts.Dir = ""
  · rw [if_pos h, if_pos h]
    decide
  · rw [if_neg h, if_neg h]
    intro hbad
    have hdata := congrArg String.data hbad
    rw [strData_append, strData_append] at hdata
    have h2 := List.append_cancel_left hdata
    exact absurd h2 (by decide)

theorem readFile_writeFile_same (fs : FS) (p c : String) :
    (fs.writeFile p c).readFile p = Except.ok c := by
  unfold FS.writeFile FS.readFile
  simp [List.lookup]

theorem readFile_writeFile_ne (fs : FS) (p q c : String) (h : q ≠ p) :
    (fs.writeFile p c).readFile q = fs.readFile q := by
  unfold FS.writeFile FS.readFile
  have hb : (q == p) = false := beq_eq_false_iff_ne.mpr h
  simp only [List.lookup, hb]

theorem genIndexHTML_ok (scan : String → Except GoErr (List String)) (opts : Options)
    (fs : FS) (tpl : String) (paths : List String)
    (htpl : fs.readFile (indexTPLPath opts) = Except.ok tpl)
    (hscan : scan (apiBasePath opts) = Except.ok paths) :
    genIndexHTML scan opts fs =
      ([LogEntry.findDocs paths],
        Except.ok (fs.writeFile (indexHTMLPath opts) (renderIndexHTML opts tpl paths))) := by
  unfold genIndexHTML
  rw [htpl, hscan]

theorem genIndexHTML_tpl_error (scan : String → Except GoErr (List String)) (opts : Options)
    (fs : FS) (e : GoErr)
    (htpl : fs.readFile (indexTPLPath opts) = Except.error e) :
    genIndexHTML scan opts fs = ([LogEntry.logErr e], Except.error e) := by
  unfold genIndexHTML
  rw [htpl]

theorem genIndexHTML_scan_error (scan : String → Except GoErr (List String)) (opts : Options)
    (fs : FS) (tpl : String) (e : GoErr)
    (htpl : fs.readFile (indexTPLPath opts) = Except.ok tpl)
    (hscan : scan (apiBasePath opts) = Except.error e) :
    genIndexHTML scan opts fs = ([LogEntry.logErr e], Except.error e) := by
  unfold genIndexHTML
  rw [htpl, hscan]

/-- C1: end-to-end generation.  With template
`<select id="x">${baseURLs}</select>` in the document root `/docs`,
scan result exactly `/docs/api/foo.json`, domain `example.com` and port
8080, `genIndexHTML` writes an `index.html` whose content is the
rendered selector — containing the option entry
`<option value="http://example.com:8080/api/foo.json">http://example.com:8080/api/foo.json</option>`
— nested inside the unchanged `<select id="x">...</select>` wrapper of
the template. -/
theorem c1_end_to_end_generation :
    ∃ fs2, genIndexHTML scanEx optsEx fsEx =
        ([LogEntry.findDocs ["/docs/api/foo.json"]], Except.ok fs2) ∧
      fs2.readFile "/docs/index.html" =
        Except.ok ("<select id=\"x\">" ++
          ("<select id=\"input_baseUrl\" name=\"baseUrl\">" ++
            ("<option value=\"http://example.com:8080/api/foo.json\">" ++
              "http://example.com:8080/api/foo.json</option>") ++
            "</select>") ++
          "</select>") := by
  refine ⟨_, rfl, ?_⟩
  rfl

/-- C2, counterexample: `genSelectHTML` computes the URL with
`strings.Replace(path, apiBasePath, baseURI, -1)`, which replaces every
occurrence of the base directory, not only the leading prefix.  For the
scanned path `/docs/api/docs/api/foo.json` (the file `foo.json` inside
the nested directory `docs/api` of the scanned tree) the rendered value
is not the base URL followed by the path's suffix after the base-prefix:
the second occurrence of `/docs/api` is rewritten as well. -/
theorem c2_url_replace_counterexample :
    genSelectVal optsEx "/docs/api/docs/api/foo.json" =
        "http://example.com:8080/api" ++ "http://example.com:8080/api" ++ "/foo.json" ∧
      genSelectVal optsEx "/docs/api/docs/api/foo.json" ≠
        "http://example.com:8080/api" ++ "/docs/api/foo.json" := by
  constructor
  · rfl
  · decide

/-- C2, amended: the rendered value is the path with every occurrence of
the local base directory `{dir}/api` replaced by the base URL
`http://{domain}:{port}/api`; for every path of the form base directory
followed by a suffix in which the base-directory string does not occur
again, this equals the base URL concatenated with the suffix, with no
other part of the path altered. -/
theorem c2_url_replacement_amended (opts : Options) (suffix : String)
    (h : containsSub (apiBasePath opts).data suffix.data = false) :
    genSelectVal opts (apiBasePath opts ++ suffix) = baseURI opts ++ suffix := by
  apply strExt
  show replaceAllFuel (apiBasePath opts).data (baseURI opts).data
      (apiBasePath opts ++ suffix).data.length (apiBasePath opts ++ suffix).data =
      (baseURI opts ++ suffix).data
  rw [strData_append, strData_append]
  exact replaceAllFuel_append (apiBasePath opts).data (baseURI opts).data suffix.data
    (apiBasePath_data_ne_nil opts) _ (le_refl _) h

theorem c2_url_replacement_amended_witness :
    genSelectVal optsEx (apiBasePath optsEx ++ "/foo.json") = baseURI optsEx ++ "/foo.json" :=
  c2_url_replacement_amended optsEx "/foo.json" (by decide)

/-- C3: when the template contains exactly one occurrence of the marker
`${baseURLs}` (split as `pre ++ marker ++ post`), `genIndexHTML` writes
to `index.html` exactly the template with that single occurrence
replaced by the rendered selector fragment, every other byte unchanged
and in order. -/
theorem c3_single_marker_substitution (scan : String → Except GoErr (List String))
    (opts : Options) (fs : FS) (tpl : String) (paths : List String) (pre post : List Char)
    (htpl : fs.readFile (indexTPLPath opts) = Except.ok tpl)
    (hscan : scan (apiBasePath opts) = Except.ok paths)
    (hsplit : tpl.data = pre ++ (marker.data ++ post))
    (hone : countOcc marker.data tpl.data = 1) :
    ∃ out : String,
      genIndexHTML scan opts fs =
        ([LogEntry.findDocs paths], Except.ok (fs.writeFile (indexHTMLPath opts) out)) ∧
      out.data = pre ++ ((genSelectHTML opts paths).data ++ post) := by
  refine ⟨renderIndexHTML opts tpl paths, genIndexHTML_ok scan opts fs tpl paths htpl hscan, ?_⟩
  rw [hsplit] at hone
  show replaceAllFuel marker.data (genSelectHTML opts paths).data
      tpl.data.length tpl.data = pre ++ ((genSelectHTML opts paths).data ++ post)
  rw [hsplit]
  exact replaceAllFuel_single marker.data (genSelectHTML opts paths).data (by decide)
    pre post _ (le_refl _) hone

theorem c3_single_marker_substitution_witness :
    ∃ out : String,
      genIndexHTML scanEx optsEx fsEx =
        ([LogEntry.findDocs ["/docs/api/foo.json"]],
          Except.ok (fsEx.writeFile (indexHTMLPath optsEx) out)) ∧
      out.data = "<select id=\"x\">".data ++
        ((genSelectHTML optsEx ["/docs/api/foo.json"]).data ++ "</select>".data) :=
  c3_single_marker_substitution scanEx optsEx fsEx tplEx ["/docs/api/foo.json"]
    "<select id=\"x\">".data "</select>".data rfl rfl (by decide) (by decide)

/-- C4: regeneration failure atomicity.  When the template cannot be
read, or the scan fails, `genIndexHTML` logs the error and returns it
without producing any written file system (the write happens strictly
after both steps succeed, so the previous landing page is untouched);
and when `genIndexHTML` fails, the watcher callback of `Run` swallows
the error and leaves the file system — hence the previously generated
landing page — unchanged, never terminating the serving process. -/
theorem c4_failure_atomicity (scan : String → Except GoErr (List String))
    (opts : Options) (fs : FS) (e : GoErr) :
    (fs.readFile (indexTPLPath opts) = Except.error e →
      genIndexHTML scan opts fs = ([LogEntry.logErr e], Except.error e)) ∧
    (∀ tpl, fs.readFile (indexTPLPath opts) = Except.ok tpl →
      scan (apiBasePath opts) = Except.error e →
      genIndexHTML scan opts fs = ([LogEntry.logErr e], Except.error e)) ∧
    ((genIndexHTML scan opts fs).2 = Except.error e →
      ∀ ev, watchCallback scan opts ev fs = fs) := by
  refine ⟨?_, ?_, ?_⟩
  · intro h
    exact genIndexHTML_tpl_error scan opts fs e h
  · intro tpl h1 h2
    exact genIndexHTML_scan_error scan opts fs tpl e h1 h2
  · intro herr ev
    unfold watchCallback applyGen
    rw [herr]
    split <;> rfl

theorem c4_failure_atomicity_witness :
    genIndexHTML scanEx optsEx fsNoTpl =
      ([LogEntry.logErr (GoErr.ioErr "/docs/index.tpl")],
        Except.error (GoErr.ioErr "/docs/index.tpl")) :=
  (c4_failure_atomicity scanEx optsEx fsNoTpl (GoErr.ioErr "/docs/index.tpl")).1 rfl

/-- C5: event classification in the watcher callback of `Run`.  An event
none of whose creation, deletion or rename flags is set (in particular a
modification-in-place event) leaves the file system untouched — no
regeneration happens; an event with any of those flags set performs
exactly one (error-swallowing) `genIndexHTML` regeneration. -/
theorem c5_event_classification (scan : String → Except GoErr (List String))
    (opts : Options) (fs : FS) (ev : FileEvent) :
    (ev.isCreate = false → ev.isDelete = false → ev.isRename = false →
      watchCallback scan opts ev fs = fs) ∧
    (ev.isCreate = true ∨ ev.isDelete = true ∨ ev.isRename = true →
      watchCallback scan opts ev fs = applyGen scan opts fs) := by
  constructor
  · intro h1 h2 h3
    unfold watchCallback
    rw [h1, h2, h3]
    simp
  · intro h
    unfold watchCallback
    rcases h with h | h | h <;> simp [h]

theorem c5_event_classification_witness :
    watchCallback scanEx optsEx evModify fsEx = fsEx :=
  (c5_event_classification scanEx optsEx fsEx evModify).1 rfl rfl rfl

/-- C6, counterexample: `Options.Validate` only rejects ports above
`maxPort`; it does not require positivity.  The configuration with port
0 — not a positive integer — is accepted, and with an existing document
directory the process proceeds all the way to serving instead of
aborting. -/
theorem c6_positive_port_counterexample :
    Options.Validate optsPort0 fsEx = none ∧ optsPort0.Port = 0 ∧
      (mainOutcome scanEx optsPort0 fsEx (Except.ok ())).outcome = Outcome.serving := by
  refine ⟨rfl, rfl, rfl⟩

/-- C6, amended: option validation accepts exactly those configurations
whose port does not exceed the maximum valid port value (65535; port 0
is also accepted, positivity is not checked) and whose document
directory exists as a directory; for every configuration violating
either condition, startup aborts with the non-zero exit code 1 before
any server starts. -/
theorem c6_validation_amended (opts : Options) (fs : FS)
    (scan : String → Except GoErr (List String)) (logRes : Except GoErr Unit) :
    (opts.Validate fs = none ↔ (opts.Port ≤ maxPort ∧ DirExisted fs opts.Dir = true)) ∧
    (∀ e, opts.Validate fs = some e →
      mainOutcome scan opts fs logRes = ⟨Outcome.exited 1, [e], fs⟩ ∧
        Outcome.exited 1 ≠ Outcome.serving) := by
  constructor
  · unfold Options.Validate
    by_cases h1 : opts.Port > maxPort
    · rw [if_pos h1]
      simp
      omega
    · rw [if_neg h1]
      by_cases h2 : DirExisted fs opts.Dir = true
      · simp [h2]
        omega
      · simp [h2]
  · intro e he
    unfold mainOutcome
    rw [he]
    exact ⟨rfl, by decide⟩

theorem c6_validation_amended_witness :
    mainOutcome scanEx optsBadPort fsEx (Except.ok ()) =
        ⟨Outcome.exited 1, [GoErr.errPort], fsEx⟩ ∧
      Outcome.exited 1 ≠ Outcome.serving :=
  (c6_validation_amended optsBadPort fsEx scanEx (Except.ok ())).2 GoErr.errPort rfl

/-- C7: distinct exit codes per failure class.  Validation failure
prints the error to stderr and exits with code 1; log-initialisation
failure with code 2; a failing startup generation with code 3, in which
case the server never starts; and the three codes are pairwise
distinct. -/
theorem c7_distinct_exit_codes (scan : String → Except GoErr (List String))
    (opts : Options) (fs : FS) (logRes : Except GoErr Unit) :
    (∀ e, opts.Validate fs = some e →
      mainOutcome scan opts fs logRes = ⟨Outcome.exited 1, [e], fs⟩) ∧
    (∀ e, opts.Validate fs = none → logRes = Except.error e →
      mainOutcome scan opts fs logRes = ⟨Outcome.exited 2, [e], fs⟩) ∧
    (∀ e, opts.Validate fs = none → logRes = Except.ok () →
      (genIndexHTML scan opts fs).2 = Except.error e →
      mainOutcome scan opts fs logRes = ⟨Outcome.exited 3, [e], fs⟩ ∧
        (mainOutcome scan opts fs logRes).outcome ≠ Outcome.serving) ∧
    (Outcome.exited 1 ≠ Outcome.exited 2 ∧ Outcome.exited 1 ≠ Outcome.exited 3 ∧
      Outcome.exited 2 ≠ Outcome.exited 3) := by
  refine ⟨?_, ?_, ?_, by decide⟩
  · intro e he
    unfold mainOutcome
    rw [he]
  · intro e hv hl
    unfold mainOutcome
    rw [hv, hl]
  · intro e hv hl hg
    have hm : mainOutcome scan opts fs logRes = ⟨Outcome.exited 3, [e], fs⟩ := by
      unfold mainOutcome
      rw [hv, hl, hg]
    exact ⟨hm, by rw [hm]; exact fun hbad => Outcome.noConfusion hbad⟩

theorem c7_distinct_exit_codes_witness :
    mainOutcome scanEx optsBadPort fsEx (Except.ok ()) =
      ⟨Outcome.exited 1, [GoErr.errPort], fsEx⟩ :=
  (c7_distinct_exit_codes scanEx optsBadPort fsEx (Except.ok ())).1 GoErr.errPort rfl

/-- C8: idempotence of generation.  If a `genIndexHTML` invocation
succeeds, invoking it again on the resulting file system — the template
content and the scan result being unchanged, since the only write went
to `index.html` — succeeds with the same log line and leaves the
landing page byte-identical to the first run's output. -/
theorem c8_generation_idempotent (scan : String → Except GoErr (List String))
    (opts : Options) (fs : FS) (l1 : List LogEntry) (fs1 : FS)
    (h : genIndexHTML scan opts fs = (l1, Except.ok fs1)) :
    ∃ fs2, genIndexHTML scan opts fs1 = (l1, Except.ok fs2) ∧
      fs2.readFile (indexHTMLPath opts) = fs1.readFile (indexHTMLPath opts) := by
  cases htpl : fs.readFile (indexTPLPath opts) with
  | error e =>
    rw [genIndexHTML_tpl_error scan opts fs e htpl] at h
    rw [Prod.mk.injEq] at h
    exact absurd h.2 (by simp)
  | ok tpl =>
    cases hscan : scan (apiBasePath opts) with
    | error e =>
      rw [genIndexHTML_scan_error scan opts fs tpl e htpl hscan] at h
      rw [Prod.mk.injEq] at h
      exact absurd h.2 (by simp)
    | ok paths =>
      rw [genIndexHTML_ok scan opts fs tpl paths htpl hscan] at h
      rw [Prod.mk.injEq] at h
      obtain ⟨hl, hr⟩ := h
      injection hr with hfs
      have htpl2 : fs1.readFile (indexTPLPath opts) = Except.ok tpl := by
        rw [← hfs, readFile_writeFile_ne _ _ _ _ (indexPaths_ne opts)]
        exact htpl
      refine ⟨fs1.writeFile (indexHTMLPath opts) (renderIndexHTML opts tpl paths), ?_, ?_⟩
      · rw [genIndexHTML_ok scan opts fs1 tpl paths htpl2 hscan, ← hl]
      · rw [readFile_writeFile_same, ← hfs, readFile_writeFile_same]

theorem c8_generation_idempotent_witness :
    ∃ fs2, genIndexHTML scanEx optsEx fsEx2 =
        ([LogEntry.findDocs ["/docs/api/foo.json"]], Except.ok fs2) ∧
      fs2.readFile (indexHTMLPath optsEx) = fsEx2.readFile (indexHTMLPath optsEx) :=
  c8_generation_idempotent scanEx optsEx fsEx
    [LogEntry.findDocs ["/docs/api/foo.json"]] fsEx2 rfl

/-- C9: the fragment returned by `genSelectHTML` is a complete select
element: the fixed opening tag `<select id="input_baseUrl"
name="baseUrl">`, then exactly one option entry per scanned path in
list order, then `</select>`; for the empty document set it is exactly
the bare element; and substituting it into a template whose marker sits
inside a select wrapper yields one select element nested inside
another. -/
theorem c9_select_fragment_structure (opts : Options) (paths : List String) :
    genSelectHTML opts paths =
      "<select id=\"input_baseUrl\" name=\"baseUrl\">" ++
        String.join (paths.map (optionEntry opts)) ++ "</select>" ∧
    genSelectHTML opts [] = "<select id=\"input_baseUrl\" name=\"baseUrl\"></select>" ∧
    renderIndexHTML opts "<select id=\"x\">${baseURLs}</select>" paths =
      "<select id=\"x\">" ++ genSelectHTML opts paths ++ "</select>" := by
  refine ⟨?_, rfl, ?_⟩
  · unfold genSelectHTML
    rw [optionsHTML_eq_join]
  · apply strExt
    have htpl : ("<select id=\"x\">${baseURLs}</select>" : String).data =
        "<select id=\"x\">".data ++ (marker.data ++ "</select>".data) := by decide
    show replaceAllFuel marker.data (genSelectHTML opts paths).data
        ("<select id=\"x\">${baseURLs}</select>" : String).data.length
        ("<select id=\"x\">${baseURLs}</select>" : String).data =
        ("<select id=\"x\">" ++ genSelectHTML opts paths ++ "</select>").data
    rw [htpl]
    rw [replaceAllFuel_single marker.data (genSelectHTML opts paths).data (by decide)
      "<select id=\"x\">".data "</select>".data _ (le_refl _) (by decide)]
    rw [strData_append, strData_append]
    simp [List.append_assoc]

/-- C10: `genIndexHTML`'s substitution replaces every occurrence of the
marker, not only one.  A template without the marker renders
byte-identical to itself; and in general the template decomposes into
marker-free pieces joined by the marker, and the rendered output is
exactly those same pieces joined by the selector fragment — every one
of the N occurrences is replaced by the same fragment. -/
theorem c10_replaces_every_occurrence (opts : Options) (paths : List String) (tpl : String) :
    (containsSub marker.data tpl.data = false → renderIndexHTML opts tpl paths = tpl) ∧
    ∃ pieces : List (List Char),
      tpl.data = joinSep marker.data pieces ∧
      (renderIndexHTML opts tpl paths).data =
        joinSep (genSelectHTML opts paths).data pieces ∧
      ∀ q ∈ pieces, containsSub marker.data q = false := by
  constructor
  · intro h
    apply strExt
    show replaceAllFuel marker.data (genSelectHTML opts paths).data
        tpl.data.length tpl.data = tpl.data
    exact replaceAllFuel_eq_self marker.data (genSelectHTML opts paths).data _ _ (le_refl _) h
  · refine ⟨splitOnSubFuel marker.data tpl.data.length tpl.data, ?_, ?_, ?_⟩
    · exact (joinSep_splitOnSubFuel marker.data _ _).symm
    · exact replaceAllFuel_eq_joinSep marker.data (genSelectHTML opts paths).data _ _
    · exact fun q hq =>
        splitOnSubFuel_pieces marker.data (by decide) _ tpl.data (le_refl _) q hq

theorem c10_replaces_every_occurrence_witness :
    renderIndexHTML optsEx "<p>no marker here</p>" ["/docs/api/foo.json"] =
      "<p>no marker here</p>" :=
  (c10_replaces_every_occurrence optsEx ["/docs/api/foo.json"] "<p>no marker here</p>").1
    (by decide)

end DocServer
